import Mathlib

/-!
Verification of the node_guardian runtime health monitor core against its
design specification.  Each section embeds one component of the source
(src/collector/eventStore.ts, src/utils/healthChecker.ts,
src/core/promiseTracker.ts, src/instrumentation/unawaitedPromiseDetector.ts,
src/utils/customMetrics.ts) as executable Lean definitions: JavaScript
numbers are modelled as Rat (exact rationals) or Int/Nat where the source
only ever holds integers, JS Map objects as association lists with the
insertion-order update semantics of Map.set, and wall-clock reads of
Date.now() as explicit Int parameters.  Theorems about the claims follow
the definitions.
-/

set_option autoImplicit false

namespace NodeGuardian

/-! ### Association lists modelling JS Map

JS Map.set replaces the value of an existing key in place and appends a
fresh key at the end; Map.get returns undefined (here none) for a missing
key; Map.delete removes the entry of the key.  Iteration order is the
insertion order, which the association list preserves. -/

def lookupA {κ β : Type} [DecidableEq κ] : List (κ × β) → κ → Option β
  | [], _ => none
  | (k', v) :: rest, k => if k' = k then some v else lookupA rest k

def setA {κ β : Type} [DecidableEq κ] : List (κ × β) → κ → β → List (κ × β)
  | [], k, v => [(k, v)]
  | (k', v') :: rest, k, v =>
      if k' = k then (k, v) :: rest else (k', v') :: setA rest k v

def delA {κ β : Type} [DecidableEq κ] (m : List (κ × β)) (k : κ) : List (κ × β) :=
  m.filter (fun kv => decide (kv.1 ≠ k))

/-- Substring test: sub occurs somewhere inside hay, as
String.prototype.includes does in the source. -/
def strContains (hay sub : String) : Bool :=
  hay.data.tails.any (fun t => sub.data.isPrefixOf t)

/-! ### Event store (src/collector/eventStore.ts) -/

inductive Severity
  | info
  | warning
  | error
  | critical
deriving DecidableEq, Repr

inductive EventType
  | eventLoopStall
  | memoryLeak
  | promiseDeadlock
  | unawaitedPromise
  | cpuBlock
  | handleLeak
  | asyncResourceLeak
  | systemInfo
deriving DecidableEq, Repr

/-- The string value of the EventType enum member in the source. -/
def EventType.str : EventType → String
  | .eventLoopStall => "EVENT_LOOP_STALL"
  | .memoryLeak => "MEMORY_LEAK"
  | .promiseDeadlock => "PROMISE_DEADLOCK"
  | .unawaitedPromise => "UNAWAITED_PROMISE"
  | .cpuBlock => "CPU_BLOCK"
  | .handleLeak => "HANDLE_LEAK"
  | .asyncResourceLeak => "ASYNC_RESOURCE_LEAK"
  | .systemInfo => "SYSTEM_INFO"

/-- GuardianEvent of eventStore.ts.  The id field of the source is the
string "evt_" followed by the value of the incremented eventCounter; the
embedding stores the counter value itself.  Of the untyped data payload the
claims only consult data.file, data.line and nothing else, so the payload
is modelled by those two optional fields. -/
structure GuardianEvent where
  id : Nat
  type : EventType
  timestamp : Int
  severity : Severity
  dataFile : Option String := none
  dataLine : Option Int := none
  file : Option String := none
  line : Option Int := none
deriving DecidableEq, Repr

/-- Arguments of one EventStore.emit call (the data payload reduced to the
fields the claims consult, plus the options object). -/
structure EmitArgs where
  type : EventType
  timestamp : Int
  severity : Option Severity := none
  dataFile : Option String := none
  dataLine : Option Int := none
  file : Option String := none
  line : Option Int := none
deriving DecidableEq, Repr

/-- inferSeverity of eventStore.ts. -/
def inferSeverity : EventType → Severity
  | .promiseDeadlock => .critical
  | .memoryLeak => .critical
  | .eventLoopStall => .error
  | .cpuBlock => .error
  | .handleLeak => .error
  | .unawaitedPromise => .warning
  | _ => .info

structure EventStoreState where
  events : List GuardianEvent
  maxEvents : Nat
  eventCounter : Nat
deriving DecidableEq, Repr

/-- The state of the EventStore singleton at construction:
no events, maxEvents = 10000, eventCounter = 0. -/
def initStore : EventStoreState :=
  { events := [], maxEvents := 10000, eventCounter := 0 }

/-- The event record built by EventStore.emit: id from the pre-incremented
counter, severity from the options or inferred from the kind (a severity
string is always truthy, so the JS disjunction is Option.getD). -/
def mkEvent (counter : Nat) (a : EmitArgs) : GuardianEvent :=
  { id := counter
    type := a.type
    timestamp := a.timestamp
    severity := a.severity.getD (inferSeverity a.type)
    dataFile := a.dataFile
    dataLine := a.dataLine
    file := a.file
    line := a.line }

/-- State effect of EventStore.emit: push the new event, then drop the
oldest entry once the length exceeds maxEvents.  Returns the emitted
event as well.  The fan-out to subscribers is modelled separately by
emitFanout below. -/
def emitStore (s : EventStoreState) (a : EmitArgs) : EventStoreState × GuardianEvent :=
  let ev := mkEvent (s.eventCounter + 1) a
  let evs := s.events ++ [ev]
  let evs' := if evs.length > s.maxEvents then evs.tail else evs
  ({ s with events := evs', eventCounter := s.eventCounter + 1 }, ev)

/-- EventStore.clear: discards the events and resets the id counter. -/
def clearStore (s : EventStoreState) : EventStoreState :=
  { s with events := [], eventCounter := 0 }

inductive StoreOp
  | emitOp (a : EmitArgs)
  | clearOp
deriving DecidableEq, Repr

/-- Run a sequence of store operations, collecting the emitted events in
emission order. -/
def runStore : EventStoreState → List StoreOp → EventStoreState × List GuardianEvent
  | s, [] => (s, [])
  | s, .emitOp a :: rest =>
      let p := emitStore s a
      let q := runStore p.1 rest
      (q.1, p.2 :: q.2)
  | s, .clearOp :: rest => runStore (clearStore s) rest

structure EventStats where
  total : Nat
  byType : EventType → Nat
  bySeverity : Severity → Nat

/-- EventStore.getEventStats: walks the retained events only. -/
def getEventStats (s : EventStoreState) : EventStats :=
  { total := s.events.length
    byType := fun t => (s.events.filter (fun e => decide (e.type = t))).length
    bySeverity := fun v => (s.events.filter (fun e => decide (e.severity = v))).length }

/-! ### Fan-out of one emit call

EventStore.emit ends with two calls into a Node events.EventEmitter:
first emit("event", event) for the wildcard subscribers, then
emit(type, event) for the kind-specific subscribers.  Node invokes the
listeners of a channel synchronously in registration order, with no
try/catch anywhere on this path: an exception thrown by a listener
propagates immediately out of emit, skipping the rest of that channel and,
for the wildcard channel, the whole kind-specific channel. -/

structure Subscriber where
  sid : Nat
  throws : GuardianEvent → Bool

/-- Invoke the listeners of one channel in order; returns the ids invoked
and whether an exception escaped. -/
def runListeners : List Subscriber → GuardianEvent → List Nat × Bool
  | [], _ => ([], false)
  | h :: rest, e =>
      if h.throws e then ([h.sid], true)
      else
        let p := runListeners rest e
        (h.sid :: p.1, p.2)

/-- The subscriber-visible effect of one EventStore.emit call: wildcard
channel first, then the kind channel unless the wildcard channel threw. -/
def emitFanout (star typed : List Subscriber) (e : GuardianEvent) : List Nat × Bool :=
  let p := runListeners star e
  if p.2 then (p.1, true)
  else
    let q := runListeners typed e
    (p.1 ++ q.1, q.2)

/-! ### Health checker (src/utils/healthChecker.ts) -/

inductive HStatus
  | healthy
  | degraded
  | unhealthy
deriving DecidableEq, Repr

structure MonitorHealth where
  healthy : Bool
  lastCheck : Int
  errors : Nat
deriving DecidableEq, Repr

/-- HealthChecker.recordMonitorCheck: on success reset errors to 0, on
failure increment the previous count (0 for an unseen monitor). -/
def recordMonitorCheck (m : List (String × MonitorHealth)) (name : String)
    (success : Bool) (now : Int) : List (String × MonitorHealth) :=
  let current := (lookupA m name).getD { healthy := true, lastCheck := 0, errors := 0 }
  setA m name
    { healthy := success
      lastCheck := now
      errors := if success then 0 else current.errors + 1 }

/-- The monitor loop of HealthChecker.getHealth: errors > 10 sets
unhealthy and breaks out of the loop; errors > 3 sets degraded and keeps
iterating. -/
def statusLoop : HStatus → List (String × MonitorHealth) → HStatus
  | st, [] => st
  | st, (_, h) :: rest =>
      if h.errors > 10 then .unhealthy
      else if h.errors > 3 then statusLoop .degraded rest
      else statusLoop st rest

/-- Overall status computation of HealthChecker.getHealth: the monitor
loop starting at healthy, then the two sequential memory checks, each an
unconditional assignment when its guard holds (heapUsed in bytes;
memoryMB = heapUsed / 1048576). -/
def getHealthStatus (m : List (String × MonitorHealth)) (heapUsed : ℚ) : HStatus :=
  let st := statusLoop .healthy m
  let memoryMB := heapUsed / 1048576
  let st := if memoryMB > 100 then .degraded else st
  if memoryMB > 200 then .unhealthy else st

/-! ### Alert router (src/utils/healthChecker.ts, AlertRouter) -/

/-- An AlertRoute.  The filter is optional; the handler closure is
abstracted by whether an invocation on a given event returns normally
(true) or throws (false is a throw). -/
structure Route where
  name : String
  filter : Option (GuardianEvent → Bool) := none
  handlerOk : GuardianEvent → Bool := fun _ => true
  enabled : Bool := true
  rateLimit : Option (Nat × Nat) := none

structure RouterState where
  routes : List Route
  alertCounts : List (String × (List Int × List Int))
  dedupCache : List (String × Int)

def initRouter (routes : List Route) : RouterState :=
  { routes := routes, alertCounts := [], dedupCache := [] }

/-- AlertRouter.getEventKey: kind, then data.file (with the JS-falsy empty
string replaced by "unknown", as an absent field is), then data.line
(absent or 0 both render as 0). -/
def getEventKey (e : GuardianEvent) : String :=
  let f := match e.dataFile with
    | some s => if s = "" then "unknown" else s
    | none => "unknown"
  e.type.str ++ ":" ++ f ++ ":" ++ toString (e.dataLine.getD 0)

/-- AlertRouter.checkRateLimit.  The counts object is trimmed in place, so
the trim persists for an existing entry even when the check refuses; the
two fresh timestamps are recorded only on success. -/
def checkRateLimit (counts : List (String × (List Int × List Int)))
    (name : String) (lim : Nat × Nat) (now : Int) :
    Bool × List (String × (List Int × List Int)) :=
  match lookupA counts name with
  | some c =>
      let pm := c.1.filter (fun t => decide (now - t < 60000))
      let ph := c.2.filter (fun t => decide (now - t < 3600000))
      if pm.length ≥ lim.1 ∨ ph.length ≥ lim.2 then
        (false, setA counts name (pm, ph))
      else
        (true, setA counts name (pm ++ [now], ph ++ [now]))
  | none =>
      if 0 ≥ lim.1 ∨ 0 ≥ lim.2 then (false, counts)
      else (true, setA counts name ([now], [now]))

structure RouteAcc where
  alertCounts : List (String × (List Int × List Int))
  dedupCache : List (String × Int)
  dispatched : List String

/-- The tail of the route loop body once the rate-limit outcome rl is
known: refuse and keep the trimmed counts, or invoke the handler and, on
normal return, record the event key in the dedup cache.  A handler
throw is logged and swallowed. -/
def routeStepRL (e : GuardianEvent) (key : String) (now : Int)
    (acc : RouteAcc) (r : Route)
    (rl : Bool × List (String × (List Int × List Int))) : RouteAcc :=
  if !rl.1 then { acc with alertCounts := rl.2 }
  else if r.handlerOk e then
    { alertCounts := rl.2
      dedupCache := setA acc.dedupCache key now
      dispatched := acc.dispatched ++ [r.name] }
  else
    { acc with alertCounts := rl.2 }

/-- The body of the route loop for a single route: skip when disabled or
when the filter rejects, else consult the rate limit (absent means
allowed) and proceed. -/
def routeStep (e : GuardianEvent) (key : String) (now : Int)
    (acc : RouteAcc) (r : Route) : RouteAcc :=
  if !r.enabled then acc
  else if (match r.filter with
           | some f => !f e
           | none => false) then acc
  else
    routeStepRL e key now acc r (match r.rateLimit with
      | some lim => checkRateLimit acc.alertCounts r.name lim now
      | none => (true, acc.alertCounts))

/-- The deduplication test at the top of AlertRouter.route: the cache
holds a timestamp for the key, the timestamp is JS-truthy (nonzero), and
it lies within the last 5 minutes. -/
def dedupHit (cache : List (String × Int)) (key : String) (now : Int) : Bool :=
  match lookupA cache key with
  | some t => decide (t ≠ 0) && decide (now - t < 300000)
  | none => false

/-- AlertRouter.route, for one call at wall-clock time now (the model
treats the call as atomic, reading the clock once).  Returns the new
state and the names of the routes whose handler was dispatched
successfully.  The dedup check runs before any route is consulted. -/
def route (s : RouterState) (e : GuardianEvent) (now : Int) :
    RouterState × List String :=
  let key := getEventKey e
  if dedupHit s.dedupCache key now then (s, [])
  else
    let acc := s.routes.foldl (routeStep e key now)
      { alertCounts := s.alertCounts, dedupCache := s.dedupCache, dispatched := [] }
    ({ s with alertCounts := acc.alertCounts, dedupCache := acc.dedupCache },
     acc.dispatched)

/-! ### Custom metrics (src/utils/customMetrics.ts)

JS numbers are modelled as exact rationals.  The percentile indices of
getHistogramStats are Math.floor(length * 0.5 / 0.95 / 0.99) on doubles;
for every length up to the 1000-observation cap these agree with the exact
Nat divisions (length * 50) / 100, (length * 95) / 100 and
(length * 99) / 100, because the fractional part of the exact product is
either 0 or at least 1/100, far beyond the double rounding error, so the
embedding uses the exact divisions. -/

/-- CustomMetrics.getKey: the plain name without labels, otherwise the
name followed by the label pairs sorted by key. -/
def getKey (name : String) (labels : List (String × String)) : String :=
  if labels.isEmpty then name
  else
    let sorted := labels.insertionSort (fun a b => a.1 ≤ b.1)
    let labelStr := String.intercalate ","
      (sorted.map (fun kv => kv.1 ++ "=\"" ++ kv.2 ++ "\""))
    name ++ "\x7b" ++ labelStr ++ "\x7d"

structure MetricsState where
  counters : List (String × ℚ)
  gauges : List (String × ℚ)
  histograms : List (String × List ℚ)

def initMetrics : MetricsState := { counters := [], gauges := [], histograms := [] }

/-- CustomMetrics.incrementCounter: add value (any number, default 1) to
the stored value, which starts at 0 for a fresh key. -/
def incrementCounter (s : MetricsState) (name : String) (value : ℚ)
    (labels : List (String × String)) : MetricsState :=
  let key := getKey name labels
  let current := (lookupA s.counters key).getD 0
  { s with counters := setA s.counters key (current + value) }

/-- CustomMetrics.getCounter: the stored value, or 0 for a missing key. -/
def getCounter (s : MetricsState) (name : String)
    (labels : List (String × String)) : ℚ :=
  (lookupA s.counters (getKey name labels)).getD 0

/-- CustomMetrics.recordHistogram: append, then drop the oldest once the
ring holds more than 1000 observations. -/
def recordHistogram (s : MetricsState) (name : String) (value : ℚ)
    (labels : List (String × String)) : MetricsState :=
  let key := getKey name labels
  let values := ((lookupA s.histograms key).getD []) ++ [value]
  let values' := if values.length > 1000 then values.tail else values
  { s with histograms := setA s.histograms key values' }

/-- The operations of the metrics registry that the counter claims range
over (setGauge and recordHistogram never touch the counters map). -/
inductive MetricsOp
  | inc (name : String) (value : ℚ) (labels : List (String × String))
  | recordH (name : String) (value : ℚ) (labels : List (String × String))

def runMetrics : MetricsState → List MetricsOp → MetricsState
  | s, [] => s
  | s, .inc n v l :: rest => runMetrics (incrementCounter s n v l) rest
  | s, .recordH n v l :: rest => runMetrics (recordHistogram s n v l) rest

structure HStats where
  count : ℚ
  sum : ℚ
  avg : ℚ
  min : ℚ
  max : ℚ
  p50 : ℚ
  p95 : ℚ
  p99 : ℚ
deriving DecidableEq, Repr

/-- CustomMetrics.getHistogramStats on the stored observation list: null
when empty, otherwise the summary of the ascending sort (the source sorts
a copy with the numeric comparator and reduces it with + from 0). -/
def getHistogramStats (values : List ℚ) : Option HStats :=
  if values.isEmpty then none
  else
    let sorted := values.insertionSort (fun a b => a ≤ b)
    let sum := sorted.foldl (· + ·) 0
    some
      { count := (sorted.length : ℚ)
        sum := sum
        avg := sum / (sorted.length : ℚ)
        min := sorted.headD 0
        max := sorted.getLastD 0
        p50 := sorted.getD (sorted.length * 50 / 100) 0
        p95 := sorted.getD (sorted.length * 95 / 100) 0
        p99 := sorted.getD (sorted.length * 99 / 100) 0 }

/-- The observations 1, 2, ..., 100 inserted in order. -/
def oneToHundred : List ℚ :=
  [1, 2, 3, 4, 5, 6, 7, 8, 9, 10, 11, 12, 13, 14, 15, 16, 17, 18, 19, 20, 21, 22, 23, 24, 25, 26, 27, 28, 29, 30, 31, 32, 33, 34, 35, 36, 37, 38, 39, 40, 41, 42, 43, 44, 45, 46, 47, 48, 49, 50, 51, 52, 53, 54, 55, 56, 57, 58, 59, 60, 61, 62, 63, 64, 65, 66, 67, 68, 69, 70, 71, 72, 73, 74, 75, 76, 77, 78, 79, 80, 81, 82, 83, 84, 85, 86, 87, 88, 89, 90, 91, 92, 93, 94, 95, 96, 97, 98, 99, 100]

/-! ### Promise tracker (src/core/promiseTracker.ts) -/

/-- The substrings of the self-filter shared (verbatim) by
PromiseTracker.onInit and the patched constructor of
UnawaitedPromiseDetector: path fragments of the packaged monitor plus the
known component names. -/
def guardianSubs : List String :=
  ["/node-guardian/", "/dist/core/", "/dist/collector/", "/dist/dashboard/",
   "/dist/instrumentation/", "promiseTracker", "eventLoopMonitor",
   "memoryMonitor", "unawaitedPromiseDetector", "eventStore"]

/-- The self-filter guard: a parsed originating file that contains one of
the fragments.  An absent file is JS-falsy and never matches. -/
def isGuardianFile : Option String → Bool
  | none => false
  | some f => guardianSubs.any (fun sub => strContains f sub)

inductive PStatus
  | pending
  | resolvedP
  | rejectedP
deriving DecidableEq, Repr

structure TrackedPromise where
  asyncId : Nat
  rtype : String
  triggerAsyncId : Nat
  createdAt : Int
  status : PStatus
  file : Option String
  line : Option Int
deriving DecidableEq, Repr

structure TrackerState where
  promises : List (Nat × TrackedPromise)
  maxTracked : Nat
  deadlockThreshold : Int
deriving DecidableEq, Repr

/-- Tracker state at construction with the default config. -/
def initTracker : TrackerState :=
  { promises := [], maxTracked := 10000, deadlockThreshold := 30000 }

/-- PromiseTracker.cleanupOldPromises: sort the non-pending entries by
creation time ascending (Array.prototype.sort is stable, as is the
insertion sort used here) and delete the
oldest Math.floor(length * 0.2) of them; length * 0.2 on doubles agrees
with the exact length / 5 for every realistic length, by the same
fractional-gap argument as for the percentile indices. -/
def cleanupOldPromises (s : TrackerState) : TrackerState :=
  let nonPending := s.promises.filter (fun kp => decide (kp.2.status ≠ .pending))
  let sorted := nonPending.insertionSort (fun a b => a.2.createdAt ≤ b.2.createdAt)
  let toRemove := sorted.length / 5
  let victims := (sorted.take toRemove).map (fun kp => kp.1)
  { s with promises := s.promises.filter (fun kp => !victims.contains kp.1) }

/-- PromiseTracker.onInit: skip non-PROMISE resources, skip resources
whose parsed originating file matches the self-filter, run the cleanup
when the map has reached maxTracked, then insert the pending record. -/
def onInit (s : TrackerState) (asyncId : Nat) (rtype : String)
    (triggerAsyncId : Nat) (file : Option String) (line : Option Int)
    (now : Int) : TrackerState :=
  if rtype ≠ "PROMISE" then s
  else if isGuardianFile file then s
  else
    let s' := if s.promises.length ≥ s.maxTracked then cleanupOldPromises s else s
    { s' with
      promises := setA s'.promises asyncId
        { asyncId := asyncId
          rtype := rtype
          triggerAsyncId := triggerAsyncId
          createdAt := now
          status := .pending
          file := file
          line := line } }

/-- PromiseTracker.onDestroy: a pending entry is marked resolved (its
deletion is deferred 60 s; the timer firing is the timerFire operation). -/
def onDestroy (s : TrackerState) (asyncId : Nat) : TrackerState :=
  match lookupA s.promises asyncId with
  | some p =>
      if p.status = .pending then
        { s with promises := setA s.promises asyncId { p with status := .resolvedP } }
      else s
  | none => s

/-- The deferred deletion scheduled by onDestroy. -/
def timerFire (s : TrackerState) (asyncId : Nat) : TrackerState :=
  { s with promises := delA s.promises asyncId }

/-- The map effect of PromiseTracker.checkForDeadlocks: every pending
entry older than the deadlock threshold is reported once and marked
rejected (the emitted event and the related-promise walk do not change
the map). -/
def checkForDeadlocks (s : TrackerState) (now : Int) : TrackerState :=
  { s with promises := s.promises.map (fun kp =>
      if kp.2.status = .pending ∧ now - kp.2.createdAt > s.deadlockThreshold then
        (kp.1, { kp.2 with status := .rejectedP })
      else kp) }

inductive TrackerOp
  | init (asyncId : Nat) (rtype : String) (triggerAsyncId : Nat)
      (file : Option String) (line : Option Int) (now : Int)
  | destroy (asyncId : Nat)
  | timer (asyncId : Nat)
  | check (now : Int)

def runTracker : TrackerState → List TrackerOp → TrackerState
  | s, [] => s
  | s, .init a t tr f l n :: rest => runTracker (onInit s a t tr f l n) rest
  | s, .destroy a :: rest => runTracker (onDestroy s a) rest
  | s, .timer a :: rest => runTracker (timerFire s a) rest
  | s, .check n :: rest => runTracker (checkForDeadlocks s n) rest

/-! ### Unawaited promise detector (src/instrumentation/unawaitedPromiseDetector.ts) -/

structure TrackedCreation where
  cid : Nat
  createdAt : Int
  file : Option String
  line : Option Int
  isAwaited : Bool
deriving DecidableEq, Repr

structure DetectorState where
  promiseCounter : Nat
  tracked : List (Nat × TrackedCreation)
  warningThreshold : Int
deriving DecidableEq, Repr

def initDetector : DetectorState :=
  { promiseCounter := 0, tracked := [], warningThreshold := 5000 }

/-- The tracking part of the patched Promise constructor: when the parsed
creation site is not Guardian-internal, assign the next id and record the
creation with isAwaited = false; a Guardian-internal creation leaves the
detector untouched (the counter is incremented only inside the branch). -/
def detectorConstruct (s : DetectorState) (file : Option String)
    (line : Option Int) (now : Int) : DetectorState :=
  if isGuardianFile file then s
  else
    let id := s.promiseCounter + 1
    { s with
      promiseCounter := id
      tracked := setA s.tracked id
        { cid := id, createdAt := now, file := file, line := line, isAwaited := false } }

/-- The patched then/catch/finally of a tracked promise: sets isAwaited
(one-way) when the entry is still present. -/
def detectorAwaitObserved (s : DetectorState) (id : Nat) : DetectorState :=
  match lookupA s.tracked id with
  | some t => { s with tracked := setA s.tracked id { t with isAwaited := true } }
  | none => s

/-- UnawaitedPromiseDetector.checkUnawaitedPromises: every entry that is
not awaited and is older than the warning threshold is reported and
deleted. -/
def detectorCheck (s : DetectorState) (now : Int) : DetectorState :=
  { s with tracked := s.tracked.filter (fun kt =>
      !(decide (kt.2.isAwaited = false) && decide (now - kt.2.createdAt > s.warningThreshold))) }

/-- The deferred removal scheduled by cleanupPromise once the promise
settles. -/
def detectorSettleCleanup (s : DetectorState) (id : Nat) : DetectorState :=
  { s with tracked := delA s.tracked id }

inductive DetectorOp
  | construct (file : Option String) (line : Option Int) (now : Int)
  | awaitObserved (id : Nat)
  | settle (id : Nat)
  | check (now : Int)

def runDetector : DetectorState → List DetectorOp → DetectorState
  | s, [] => s
  | s, .construct f l n :: rest => runDetector (detectorConstruct s f l n) rest
  | s, .awaitObserved i :: rest => runDetector (detectorAwaitObserved s i) rest
  | s, .settle i :: rest => runDetector (detectorSettleCleanup s i) rest
  | s, .check n :: rest => runDetector (detectorCheck s n) rest

/-! ### Concrete instances used by counterexamples and witnesses -/

/-- A SystemInfo emission with an empty payload. -/
def cexEmit : EmitArgs := { type := .systemInfo, timestamp := 0 }

/-- Eleven failed checks of the memory monitor recorded in sequence. -/
def cexMonitors : List (String × MonitorHealth) :=
  (List.range 11).foldl (fun m _ => recordMonitorCheck m "memory" false 0) []

/-- An enabled route with no filter, no rate limit and a handler that
always returns normally. -/
def cexRoute : Route := { name := "r" }

/-- Two events agreeing in kind and in their own file/line fields but
differing in the file recorded inside the payload. -/
def cexEventA : GuardianEvent :=
  { id := 1, type := .systemInfo, timestamp := 0, severity := .info,
    dataFile := some "a", dataLine := some 1, file := some "x", line := some 1 }

def cexEventB : GuardianEvent :=
  { id := 2, type := .systemInfo, timestamp := 0, severity := .info,
    dataFile := some "b", dataLine := some 1, file := some "x", line := some 1 }

/-- A tracker configured with maxTracked = 10 (the lower end of the
documented 10 to 100000 range). -/
def smallTracker : TrackerState :=
  { promises := [], maxTracked := 10, deadlockThreshold := 30000 }

/-- Eleven task-init events for distinct user promises, all pending. -/
def cexTrackerOps : List TrackerOp :=
  (List.range 11).map (fun i => .init (i + 1) "PROMISE" 0 (some "/app/user.js") none 0)

/-- A tracker at its cap of one entry, the entry pending. -/
def onePendingTracker : TrackerState :=
  { promises := [(5,
      { asyncId := 5, rtype := "PROMISE", triggerAsyncId := 0, createdAt := 0,
        status := .pending, file := some "/app/user.js", line := none })],
    maxTracked := 1, deadlockThreshold := 30000 }

/-- A subscriber whose handler throws on every event. -/
def throwingSub : Subscriber := { sid := 1, throws := fun _ => true }

/-- A subscriber whose handler always returns normally. -/
def okSub : Subscriber := { sid := 2, throws := fun _ => false }

/-! ## Theorems

Shared lemmas about the association-list model, then one main theorem per
claim together with its counterexample or witness. -/

theorem lookupA_setA_self {κ β : Type} [DecidableEq κ]
    (m : List (κ × β)) (k : κ) (v : β) : lookupA (setA m k v) k = some v := by
  induction m with
  | nil => simp [setA, lookupA]
  | cons kv rest ih =>
      by_cases h : kv.1 = k
      · simp [setA, h, lookupA]
      · simp [setA, h, lookupA, ih]

theorem lookupA_setA_ne {κ β : Type} [DecidableEq κ]
    (m : List (κ × β)) (k k' : κ) (v : β) (h : k' ≠ k) :
    lookupA (setA m k v) k' = lookupA m k' := by
  induction m with
  | nil =>
      simp only [setA, lookupA]
      rw [if_neg (Ne.symm h)]
  | cons kv rest ih =>
      by_cases hk : kv.1 = k
      · subst hk
        simp only [setA, if_pos rfl, lookupA]
        rw [if_neg (Ne.symm h), if_neg (Ne.symm h)]
      · simp only [setA, hk, if_false, lookupA, ih]

theorem length_setA_of_lookupA_none {κ β : Type} [DecidableEq κ]
    (m : List (κ × β)) (k : κ) (v : β) (h : lookupA m k = none) :
    (setA m k v).length = m.length + 1 := by
  induction m with
  | nil => simp [setA]
  | cons kv rest ih =>
      by_cases hk : kv.1 = k
      · simp [lookupA, hk] at h
      · simp only [lookupA, hk, if_false] at h
        simp [setA, hk, ih h]

theorem mem_setA {κ β : Type} [DecidableEq κ]
    (m : List (κ × β)) (k : κ) (v : β) (kv : κ × β)
    (h : kv ∈ setA m k v) : kv ∈ m ∨ kv = (k, v) := by
  induction m with
  | nil => simp [setA] at h; right; exact h
  | cons hd rest ih =>
      by_cases hk : hd.1 = k
      · simp only [setA, hk, if_true, List.mem_cons] at h
        rcases h with h | h
        · right; exact h
        · left; exact List.mem_cons_of_mem _ h
      · simp only [setA, hk, if_false, List.mem_cons] at h
        rcases h with h | h
        · left; exact h ▸ List.mem_cons_self _ _
        · rcases ih h with h' | h'
          · left; exact List.mem_cons_of_mem _ h'
          · right; exact h'

theorem statusLoop_eq (m : List (String × MonitorHealth)) (st : HStatus) :
    statusLoop st m =
      if ∃ kv ∈ m, 10 < kv.2.errors then .unhealthy
      else if ∃ kv ∈ m, 3 < kv.2.errors then .degraded
      else st := by
  induction m generalizing st with
  | nil => simp [statusLoop]
  | cons kv rest ih =>
      have e1 : statusLoop st (kv :: rest)
          = if 10 < kv.2.errors then .unhealthy
            else if 3 < kv.2.errors then statusLoop .degraded rest
            else statusLoop st rest := rfl
      rw [e1]
      by_cases h10 : 10 < kv.2.errors
      · rw [if_pos h10, if_pos ⟨kv, List.mem_cons_self kv rest, h10⟩]
      · have hc10 : (∃ x ∈ kv :: rest, 10 < x.2.errors) ↔ (∃ x ∈ rest, 10 < x.2.errors) := by
          rw [List.exists_mem_cons_iff]
          simp [h10]
        have hc3 : (∃ x ∈ kv :: rest, 3 < x.2.errors)
            ↔ (3 < kv.2.errors ∨ ∃ x ∈ rest, 3 < x.2.errors) :=
          List.exists_mem_cons_iff _ kv rest
        rw [if_neg h10]
        by_cases h3 : 3 < kv.2.errors
        · rw [if_pos h3, ih]
          by_cases hr10 : ∃ x ∈ rest, 10 < x.2.errors
          · rw [if_pos hr10, if_pos (hc10.2 hr10)]
          · rw [if_neg hr10, if_neg (fun hh => hr10 (hc10.1 hh)),
              if_pos (hc3.2 (Or.inl h3)), ite_self]
        · rw [if_neg h3, ih]
          by_cases hr10 : ∃ x ∈ rest, 10 < x.2.errors
          · rw [if_pos hr10, if_pos (hc10.2 hr10)]
          · rw [if_neg hr10, if_neg (fun hh => hr10 (hc10.1 hh))]
            by_cases hr3 : ∃ x ∈ rest, 3 < x.2.errors
            · rw [if_pos hr3, if_pos (hc3.2 (Or.inr hr3))]
            · rw [if_neg hr3, if_neg (fun hh => (hc3.1 hh).elim h3 hr3)]

/-- C1: claimed: with some monitor above 10 consecutive errors getHealth
is unhealthy regardless of heap usage, heap above 100 MB only ever
downgrading.  False: after eleven failed checks of one monitor the
status is unhealthy, yet a heap of 150 MB (above 100 MB, below 200 MB)
overwrites it with degraded. -/
theorem getHealth_midrange_heap_overrides_unhealthy :
    (lookupA cexMonitors "memory").map MonitorHealth.errors = some 11
    ∧ 10 < 11
    ∧ getHealthStatus cexMonitors (150 * 1048576) = HStatus.degraded
    ∧ HStatus.degraded ≠ HStatus.unhealthy := by
  refine ⟨by decide, by norm_num, ?_, by decide⟩
  have h1 : statusLoop HStatus.healthy cexMonitors = HStatus.unhealthy := by decide
  simp only [getHealthStatus]
  rw [h1]
  norm_num

/-- C1 amended: the monitor loop yields unhealthy when some monitor has
more than 10 errors, else degraded when some has more than 3; but the
heap checks then overwrite unconditionally: above 200 MB the result is
unhealthy, else above 100 MB it is degraded whatever the monitors said,
else the monitor-derived status stands. -/
theorem getHealthStatus_characterization
    (m : List (String × MonitorHealth)) (heapUsed : ℚ) :
    getHealthStatus m heapUsed =
      if heapUsed / 1048576 > 200 then .unhealthy
      else if heapUsed / 1048576 > 100 then .degraded
      else if ∃ kv ∈ m, 10 < kv.2.errors then .unhealthy
      else if ∃ kv ∈ m, 3 < kv.2.errors then .degraded
      else .healthy := by
  unfold getHealthStatus
  rw [statusLoop_eq]

theorem runListeners_no_throw (hs : List Subscriber) (e : GuardianEvent)
    (h : ∀ s ∈ hs, s.throws e = false) :
    runListeners hs e = (hs.map Subscriber.sid, false) := by
  induction hs with
  | nil => rfl
  | cons a rest ih =>
      have ha : a.throws e = false := h a (List.mem_cons_self a rest)
      have hrest := ih (fun s hs => h s (List.mem_cons_of_mem a hs))
      simp [runListeners, ha, hrest]

theorem runListeners_snd (hs : List Subscriber) (e : GuardianEvent) :
    (runListeners hs e).2 = hs.any (fun s => s.throws e) := by
  induction hs with
  | nil => rfl
  | cons a rest ih =>
      cases ha : a.throws e with
      | true => simp [runListeners, ha]
      | false => simp [runListeners, ha, ih]

theorem runListeners_fst_extends (hs : List Subscriber) (e : GuardianEvent) :
    ∃ rest, (runListeners hs e).1 ++ rest = hs.map Subscriber.sid := by
  induction hs with
  | nil => exact ⟨[], rfl⟩
  | cons a rest ih =>
      cases ha : a.throws e with
      | true =>
          exact ⟨rest.map Subscriber.sid, by simp [runListeners, ha]⟩
      | false =>
          obtain ⟨r, hr⟩ := ih
          exact ⟨r, by simp [runListeners, ha, hr]⟩

/-- C2 corrected: EventStore.emit invokes the subscribers synchronously in
subscription order, all of them when none throws; but a throwing handler
stops the iteration (its invocation list is a prefix of the subscription
order) and the exception escapes from emit exactly when some handler in
the fan-out throws. -/
theorem emit_subscriber_exception_contract
    (star typed : List Subscriber) (e : GuardianEvent) :
    ((∀ s ∈ star ++ typed, s.throws e = false) →
        emitFanout star typed e = ((star ++ typed).map Subscriber.sid, false))
    ∧ (emitFanout star typed e).2 = (star ++ typed).any (fun s => s.throws e)
    ∧ ∃ rest, (emitFanout star typed e).1 ++ rest = (star ++ typed).map Subscriber.sid := by
  refine ⟨?_, ?_, ?_⟩
  · intro h
    have hstar : runListeners star e = (star.map Subscriber.sid, false) :=
      runListeners_no_throw star e (fun s hs => h s (List.mem_append_left _ hs))
    have htyped : runListeners typed e = (typed.map Subscriber.sid, false) :=
      runListeners_no_throw typed e (fun s hs => h s (List.mem_append_right _ hs))
    simp [emitFanout, hstar, htyped]
  · cases hp : (runListeners star e).2 with
    | true =>
        have hany : star.any (fun s => s.throws e) = true := by
          rw [← runListeners_snd]; exact hp
        simp [emitFanout, hp, List.any_append, hany]
    | false =>
        have hany : star.any (fun s => s.throws e) = false := by
          rw [← runListeners_snd]; exact hp
        simp [emitFanout, hp, List.any_append, hany, runListeners_snd]
  · cases hp : (runListeners star e).2 with
    | true =>
        obtain ⟨r1, hr1⟩ := runListeners_fst_extends star e
        refine ⟨r1 ++ typed.map Subscriber.sid, ?_⟩
        simp only [emitFanout, hp, if_true, List.map_append, ← List.append_assoc, hr1]
    | false =>
        have hall : ∀ s ∈ star, s.throws e = false := by
          intro s hs
          have hany : star.any (fun s => s.throws e) = false := by
            rw [← runListeners_snd]; exact hp
          have := List.any_eq_false.mp hany s hs
          exact Bool.not_eq_true _ ▸ eq_false_of_ne_true this
        have hstar : runListeners star e = (star.map Subscriber.sid, false) :=
          runListeners_no_throw star e hall
        obtain ⟨r2, hr2⟩ := runListeners_fst_extends typed e
        refine ⟨r2, ?_⟩
        simp [emitFanout, hstar, List.map_append, List.append_assoc, hr2]

/-- C2 counterexample: with a first subscriber that throws, the second
subscriber is never invoked and the exception escapes from emit. -/
theorem emit_throwing_subscriber_blocks_rest :
    emitFanout [throwingSub, okSub] [] cexEventA = ([1], true)
    ∧ okSub.sid = 2 ∧ (2 : Nat) ∉ [1] := by
  exact ⟨rfl, rfl, by decide⟩

/-- C2 witness: with a single non-throwing subscriber the fan-out invokes
it and reports no exception. -/
theorem emit_subscriber_exception_contract_witness :
    emitFanout [okSub] [] cexEventA = ([2], false) :=
  (emit_subscriber_exception_contract [okSub] [] cexEventA).1 (by
    intro s hs
    simp only [List.append_nil, List.mem_singleton] at hs
    subst hs
    rfl)

theorem emitStore_events_length (s : EventStoreState) (a : EmitArgs)
    (h : s.events.length ≤ s.maxEvents) :
    (emitStore s a).1.events.length = min (s.events.length + 1) s.maxEvents := by
  simp only [emitStore]
  split
  · rename_i hcond
    rw [List.length_tail]
    simp only [List.length_append, List.length_singleton] at hcond ⊢
    rw [min_eq_right (by omega : s.maxEvents ≤ s.events.length + 1)]
    omega
  · rename_i hcond
    simp only [List.length_append, List.length_singleton] at hcond ⊢
    rw [min_eq_left (by omega : s.events.length + 1 ≤ s.maxEvents)]

theorem emitStore_maxEvents (s : EventStoreState) (a : EmitArgs) :
    (emitStore s a).1.maxEvents = s.maxEvents := rfl

theorem min_add_chain (n k mx : Nat) (h : n ≤ mx) :
    min (min (n + 1) mx + k) mx = min (n + (k + 1)) mx := by
  rcases Nat.le_total (n + 1) mx with h1 | h1
  · rw [min_eq_left h1]
    congr 1
    omega
  · rw [min_eq_right h1, min_eq_right (Nat.le_add_right mx k),
      min_eq_right (by omega : mx ≤ n + (k + 1))]

theorem runStore_emit_length (L : List EmitArgs) : ∀ s : EventStoreState,
    s.events.length ≤ s.maxEvents →
    ((runStore s (L.map StoreOp.emitOp)).1.events.length
        = min (s.events.length + L.length) s.maxEvents
      ∧ (runStore s (L.map StoreOp.emitOp)).1.maxEvents = s.maxEvents) := by
  induction L with
  | nil =>
      intro s h
      simp only [List.map_nil, runStore, List.length_nil]
      exact ⟨by rw [Nat.add_zero, min_eq_left h], trivial⟩
  | cons a L ih =>
      intro s h
      simp only [List.map_cons, runStore]
      have hlen := emitStore_events_length s a h
      have hmax := emitStore_maxEvents s a
      have hle : (emitStore s a).1.events.length ≤ (emitStore s a).1.maxEvents := by
        rw [hlen, hmax]; exact min_le_right _ _
      obtain ⟨h1, h2⟩ := ih (emitStore s a).1 hle
      constructor
      · rw [h1, hlen, hmax]
        simp only [List.length_cons]
        exact min_add_chain _ _ _ h
      · rw [h2, hmax]

theorem runStore_emit_ids (L : List EmitArgs) : ∀ s : EventStoreState,
    ((runStore s (L.map StoreOp.emitOp)).2.map GuardianEvent.id)
      = List.range' (s.eventCounter + 1) L.length := by
  induction L with
  | nil => intro s; rfl
  | cons a L ih =>
      intro s
      simp only [List.map_cons, runStore, List.length_cons, List.range'_succ]
      rw [ih]
      rfl

/-- C5 corrected: within a run of emissions with no intervening clear, the
event ids strictly increase with the emission order. -/
theorem eventIds_strictly_increase_without_clear (L : List EmitArgs) (i j : Nat)
    (hij : i < j) (hj : j < L.length) :
    ((runStore initStore (L.map StoreOp.emitOp)).2.map GuardianEvent.id).getD i 0
      < ((runStore initStore (L.map StoreOp.emitOp)).2.map GuardianEvent.id).getD j 0 := by
  rw [runStore_emit_ids]
  have hi : i < L.length := lt_trans hij hj
  have hi' : i < (List.range' (initStore.eventCounter + 1) L.length).length := by
    rw [List.length_range']; exact hi
  have hj' : j < (List.range' (initStore.eventCounter + 1) L.length).length := by
    rw [List.length_range']; exact hj
  rw [List.getD_eq_getElem _ _ hi', List.getD_eq_getElem _ _ hj',
    List.getElem_range', List.getElem_range']
  omega

/-- C5 witness: the second of two emissions has a strictly larger id. -/
theorem eventIds_strictly_increase_witness :
    (((runStore initStore ([cexEmit, cexEmit].map StoreOp.emitOp)).2.map GuardianEvent.id).getD 0 0)
      < (((runStore initStore ([cexEmit, cexEmit].map StoreOp.emitOp)).2.map GuardianEvent.id).getD 1 0) :=
  eventIds_strictly_increase_without_clear [cexEmit, cexEmit] 0 1 (by decide) (by decide)

/-- C5 counterexample: clear() resets the id counter, so the first
emission after a clear carries id 1 again, not an id strictly above the
emission before the clear. -/
theorem eventId_resets_after_clear :
    ((runStore initStore [.emitOp cexEmit, .clearOp, .emitOp cexEmit]).2.map GuardianEvent.id)
        = [1, 1]
    ∧ ¬ (1 : Nat) < 1 := by decide

theorem byType_partition (evs : List GuardianEvent) :
    (evs.filter (fun e => decide (e.type = .eventLoopStall))).length
    + (evs.filter (fun e => decide (e.type = .memoryLeak))).length
    + (evs.filter (fun e => decide (e.type = .promiseDeadlock))).length
    + (evs.filter (fun e => decide (e.type = .unawaitedPromise))).length
    + (evs.filter (fun e => decide (e.type = .cpuBlock))).length
    + (evs.filter (fun e => decide (e.type = .handleLeak))).length
    + (evs.filter (fun e => decide (e.type = .asyncResourceLeak))).length
    + (evs.filter (fun e => decide (e.type = .systemInfo))).length
    = evs.length := by
  induction evs with
  | nil => rfl
  | cons e rest ih =>
      cases he : e.type <;>
        simp only [List.filter_cons, he, decide_True, decide_False, if_true, if_false,
          List.length_cons, reduceCtorEq, decide_eq_true_eq] <;>
        omega

/-- C10: getEventStats counts only the currently retained events: total is
the ring length, which is the emission count capped at 10000, and the
per-kind counts partition the retained events, so evicted events are
absent from every statistic. -/
theorem eventStats_cover_retained_only (L : List EmitArgs) :
    (getEventStats (runStore initStore (L.map StoreOp.emitOp)).1).total
        = (runStore initStore (L.map StoreOp.emitOp)).1.events.length
    ∧ (getEventStats (runStore initStore (L.map StoreOp.emitOp)).1).total
        = min L.length 10000
    ∧ (getEventStats (runStore initStore (L.map StoreOp.emitOp)).1).byType .eventLoopStall
      + (getEventStats (runStore initStore (L.map StoreOp.emitOp)).1).byType .memoryLeak
      + (getEventStats (runStore initStore (L.map StoreOp.emitOp)).1).byType .promiseDeadlock
      + (getEventStats (runStore initStore (L.map StoreOp.emitOp)).1).byType .unawaitedPromise
      + (getEventStats (runStore initStore (L.map StoreOp.emitOp)).1).byType .cpuBlock
      + (getEventStats (runStore initStore (L.map StoreOp.emitOp)).1).byType .handleLeak
      + (getEventStats (runStore initStore (L.map StoreOp.emitOp)).1).byType .asyncResourceLeak
      + (getEventStats (runStore initStore (L.map StoreOp.emitOp)).1).byType .systemInfo
        = (getEventStats (runStore initStore (L.map StoreOp.emitOp)).1).total := by
  have hrun := runStore_emit_length L initStore (by simp [initStore])
  refine ⟨rfl, ?_, ?_⟩
  · have : initStore.events.length = 0 := rfl
    have hmax : initStore.maxEvents = 10000 := rfl
    calc (getEventStats (runStore initStore (L.map StoreOp.emitOp)).1).total
        = (runStore initStore (L.map StoreOp.emitOp)).1.events.length := rfl
      _ = min (initStore.events.length + L.length) initStore.maxEvents := hrun.1
      _ = min L.length 10000 := by rw [this, hmax, Nat.zero_add]
  · exact byType_partition _

theorem routeStepRL_dedup_records (e : GuardianEvent) (key : String) (now : Int)
    (r : Route) (acc : RouteAcc)
    (rl : Bool × List (String × (List Int × List Int)))
    (h : acc.dispatched ≠ [] → lookupA acc.dedupCache key = some now) :
    (routeStepRL e key now acc r rl).dispatched ≠ [] →
      lookupA (routeStepRL e key now acc r rl).dedupCache key = some now := by
  unfold routeStepRL
  split
  · exact h
  · split
    · intro _
      exact lookupA_setA_self _ _ _
    · exact h

theorem routeStep_dedup_records (e : GuardianEvent) (key : String) (now : Int)
    (r : Route) (acc : RouteAcc)
    (h : acc.dispatched ≠ [] → lookupA acc.dedupCache key = some now) :
    (routeStep e key now acc r).dispatched ≠ [] →
      lookupA (routeStep e key now acc r).dedupCache key = some now := by
  unfold routeStep
  split
  · exact h
  · split
    · exact h
    · exact routeStepRL_dedup_records e key now r acc _ h

theorem routeFold_dedup_records (e : GuardianEvent) (key : String) (now : Int)
    (rs : List Route) : ∀ acc : RouteAcc,
    (acc.dispatched ≠ [] → lookupA acc.dedupCache key = some now) →
    ((rs.foldl (routeStep e key now) acc).dispatched ≠ [] →
      lookupA (rs.foldl (routeStep e key now) acc).dedupCache key = some now) := by
  induction rs with
  | nil => intro acc h; exact h
  | cons r rs ih =>
      intro acc h
      exact ih _ (routeStep_dedup_records e key now r acc h)

/-- C3 amended: the dedup key is kind together with the file and line of
the event payload (data.file, data.line), not the event record of the
router; when the cache holds a nonzero dispatch time for that key less
than 5 minutes old, route() returns before consulting any route and the
state is unchanged, and any call that dispatched at least one handler
records the current time under that key. -/
theorem route_payload_key_dedup (s : RouterState) (e : GuardianEvent) (now : Int) :
    (∀ t : Int, lookupA s.dedupCache (getEventKey e) = some t → t ≠ 0 →
        now - t < 300000 → route s e now = (s, []))
    ∧ ((route s e now).2 ≠ [] →
        lookupA (route s e now).1.dedupCache (getEventKey e) = some now) := by
  constructor
  · intro t hfind h0 hlt
    have hd : dedupHit s.dedupCache (getEventKey e) now = true := by
      simp [dedupHit, hfind, h0, hlt]
    simp [route, hd]
  · intro hne
    by_cases hd : dedupHit s.dedupCache (getEventKey e) now = true
    · simp [route, hd] at hne
    · simp only [route, hd, if_false, Bool.false_eq_true] at hne ⊢
      exact routeFold_dedup_records e (getEventKey e) now s.routes _
        (fun hc => absurd rfl hc) hne

/-- C3 witness: the same event routed again one second later is dropped
with the state unchanged. -/
theorem route_payload_key_dedup_witness :
    route ((route (initRouter [cexRoute]) cexEventA 1000000).1) cexEventA 1001000
      = ((route (initRouter [cexRoute]) cexEventA 1000000).1, []) :=
  (route_payload_key_dedup _ cexEventA 1001000).1 1000000 rfl (by decide) (by decide)

/-- C3 counterexample: two events agreeing in kind and in their own
file/line fields, but with different payload file entries, both dispatch
within one second of each other: the dedup key is computed from
data.file and data.line, not from the event record fields that the claim
names. -/
theorem route_dedup_ignores_event_own_location :
    cexEventA.file = cexEventB.file ∧ cexEventA.line = cexEventB.line
    ∧ cexEventA.type = cexEventB.type
    ∧ (route (initRouter [cexRoute]) cexEventA 1000000).2 = ["r"]
    ∧ (route ((route (initRouter [cexRoute]) cexEventA 1000000).1) cexEventB 1001000).2 = ["r"]
    ∧ (1001000 : Int) - 1000000 < 300000 :=
  ⟨rfl, rfl, rfl, rfl, rfl, by decide⟩

theorem routeStepRL_dedup_preserves (e : GuardianEvent) (key : String) (now : Int)
    (r : Route) (acc : RouteAcc)
    (rl : Bool × List (String × (List Int × List Int))) (k : String) (t : Int)
    (h : ∃ t', lookupA acc.dedupCache k = some t' ∧ (k ≠ key → t' = t)) :
    ∃ t', lookupA (routeStepRL e key now acc r rl).dedupCache k = some t'
      ∧ (k ≠ key → t' = t) := by
  unfold routeStepRL
  split
  · exact h
  · split
    · by_cases hkk : k = key
      · subst hkk
        exact ⟨now, lookupA_setA_self _ _ _, fun hne => absurd rfl hne⟩
      · obtain ⟨t', ht', himp⟩ := h
        exact ⟨t', by rw [lookupA_setA_ne _ _ _ _ hkk]; exact ht', himp⟩
    · exact h

theorem routeStep_dedup_preserves (e : GuardianEvent) (key : String) (now : Int)
    (r : Route) (acc : RouteAcc) (k : String) (t : Int)
    (h : ∃ t', lookupA acc.dedupCache k = some t' ∧ (k ≠ key → t' = t)) :
    ∃ t', lookupA (routeStep e key now acc r).dedupCache k = some t'
      ∧ (k ≠ key → t' = t) := by
  unfold routeStep
  split
  · exact h
  · split
    · exact h
    · exact routeStepRL_dedup_preserves e key now r acc _ k t h

theorem routeFold_dedup_preserves (e : GuardianEvent) (key : String) (now : Int)
    (rs : List Route) : ∀ (acc : RouteAcc) (k : String) (t : Int),
    (∃ t', lookupA acc.dedupCache k = some t' ∧ (k ≠ key → t' = t)) →
    ∃ t', lookupA ((rs.foldl (routeStep e key now) acc)).dedupCache k = some t'
      ∧ (k ≠ key → t' = t) := by
  induction rs with
  | nil => intro acc k t h; exact h
  | cons r rs ih =>
      intro acc k t h
      exact ih _ k t (routeStep_dedup_preserves e key now r acc k t h)

/-- C7 corrected: route() never removes a dedup cache entry: every key
present before a call is still present afterwards, with its timestamp
unchanged unless it is the key of the routed event; entries are never
trimmed by age, so stale entries persist indefinitely. -/
theorem route_never_trims_dedup (s : RouterState) (e : GuardianEvent) (now : Int)
    (k : String) (t : Int) (hk : lookupA s.dedupCache k = some t) :
    ∃ t', lookupA (route s e now).1.dedupCache k = some t'
      ∧ (k ≠ getEventKey e → t' = t) := by
  by_cases hd : dedupHit s.dedupCache (getEventKey e) now = true
  · simp only [route, hd, if_true]
    exact ⟨t, hk, fun _ => rfl⟩
  · simp only [route, hd, if_false, Bool.false_eq_true]
    exact routeFold_dedup_preserves e (getEventKey e) now s.routes _ k t
      ⟨t, hk, fun _ => rfl⟩

/-- C7 witness: the entry recorded for the first event is still in the
cache after routing a different event 400 seconds later. -/
theorem route_never_trims_dedup_witness :
    ∃ t', lookupA ((route ((route (initRouter [cexRoute]) cexEventA 1000).1)
          cexEventB 401000).1.dedupCache) (getEventKey cexEventA) = some t'
      ∧ (getEventKey cexEventA ≠ getEventKey cexEventB → t' = 1000) :=
  route_never_trims_dedup _ cexEventB 401000 (getEventKey cexEventA) 1000 rfl

/-- C7 counterexample: after a route() call at time 401000 the dedup
cache still holds the entry recorded at time 1000, which is more than 5
minutes old, so the cache is not trimmed by age on access. -/
theorem dedup_cache_keeps_stale_entries :
    lookupA ((route ((route (initRouter [cexRoute]) cexEventA 1000).1)
          cexEventB 401000).1.dedupCache) (getEventKey cexEventA) = some 1000
    ∧ (401000 : Int) - 1000 > 300000 :=
  ⟨rfl, by decide⟩

/-- C4 counterexample: with maxTracked = 10 (the lower end of the
documented range) eleven task-init events for pending user promises leave
eleven entries in the map: the cleanup removes 20 percent of the
non-pending entries, of which there are none. -/
theorem tracker_exceeds_maxTracked_on_pending :
    (runTracker smallTracker cexTrackerOps).promises.length = 11
    ∧ smallTracker.maxTracked = 10 ∧ (10 : Nat) < 11 := by decide

/-- C4 amended: when the map has reached maxTracked, onInit removes the
oldest one fifth of the non-pending entries before inserting; when every
tracked entry is pending this cleanup removes nothing and the insertion
drives the map size past maxTracked. -/
theorem onInit_allPending_overflow (s : TrackerState) (a trig : Nat)
    (f : Option String) (l : Option Int) (now : Int)
    (hpend : ∀ kp ∈ s.promises, kp.2.status = PStatus.pending)
    (hfile : isGuardianFile f = false)
    (hfresh : lookupA s.promises a = none)
    (hfull : s.promises.length ≥ s.maxTracked) :
    cleanupOldPromises s = s
    ∧ (onInit s a "PROMISE" trig f l now).promises.length
        = s.promises.length + 1 := by
  have hnp : s.promises.filter (fun kp => decide (kp.2.status ≠ PStatus.pending)) = [] := by
    rw [List.filter_eq_nil_iff]
    intro kp hkp
    simp [hpend kp hkp]
  have hclean : cleanupOldPromises s = s := by
    simp only [cleanupOldPromises]
    rw [hnp]
    simp
  refine ⟨hclean, ?_⟩
  simp only [onInit, ne_eq, not_true_eq_false, if_false, hfile, Bool.false_eq_true,
    ge_iff_le, hfull, if_true, hclean]
  exact length_setA_of_lookupA_none _ _ _ hfresh

/-- C4 witness: a tracker at its cap of one pending entry accepts a fresh
init and ends with two entries. -/
theorem onInit_allPending_overflow_witness :
    cleanupOldPromises onePendingTracker = onePendingTracker
    ∧ (onInit onePendingTracker 6 "PROMISE" 0 (some "/app/user.js") none 0).promises.length
        = onePendingTracker.promises.length + 1 :=
  onInit_allPending_overflow onePendingTracker 6 0 (some "/app/user.js") none 0
    (by decide) (by decide) (by decide) (by decide)

theorem lookupA_mem {κ β : Type} [DecidableEq κ]
    (m : List (κ × β)) (k : κ) (v : β) (h : lookupA m k = some v) : (k, v) ∈ m := by
  induction m with
  | nil => simp [lookupA] at h
  | cons kv rest ih =>
      by_cases hk : kv.1 = k
      · simp only [lookupA, hk, if_true, Option.some_inj] at h
        subst h
        subst hk
        exact List.mem_cons_self _ _
      · simp only [lookupA, hk, if_false] at h
        exact List.mem_cons_of_mem _ (ih h)

theorem cleanup_subset (s : TrackerState) (kp : Nat × TrackedPromise)
    (h : kp ∈ (cleanupOldPromises s).promises) : kp ∈ s.promises := by
  simp only [cleanupOldPromises] at h
  exact (List.mem_filter.mp h).1

theorem onInit_no_guardian (s : TrackerState) (a : Nat) (rt : String) (trig : Nat)
    (f : Option String) (l : Option Int) (now : Int)
    (h : ∀ kp ∈ s.promises, isGuardianFile kp.2.file = false) :
    ∀ kp ∈ (onInit s a rt trig f l now).promises, isGuardianFile kp.2.file = false := by
  unfold onInit
  split
  · exact h
  · split
    · exact h
    · rename_i hg
      intro kp hkp
      rcases mem_setA _ _ _ _ hkp with hm | heq
      · by_cases hfull : s.promises.length ≥ s.maxTracked
        · simp only [hfull, if_true] at hm
          exact h kp (cleanup_subset s kp hm)
        · simp only [hfull, if_false] at hm
          exact h kp hm
      · subst heq
        exact eq_false_of_ne_true hg

theorem onDestroy_no_guardian (s : TrackerState) (a : Nat)
    (h : ∀ kp ∈ s.promises, isGuardianFile kp.2.file = false) :
    ∀ kp ∈ (onDestroy s a).promises, isGuardianFile kp.2.file = false := by
  unfold onDestroy
  split
  · rename_i p hl
    split
    · intro kp hkp
      rcases mem_setA _ _ _ _ hkp with hm | heq
      · exact h kp hm
      · subst heq
        exact h (a, p) (lookupA_mem _ _ _ hl)
    · exact h
  · exact h

theorem timerFire_no_guardian (s : TrackerState) (a : Nat)
    (h : ∀ kp ∈ s.promises, isGuardianFile kp.2.file = false) :
    ∀ kp ∈ (timerFire s a).promises, isGuardianFile kp.2.file = false := by
  intro kp hkp
  simp only [timerFire, delA] at hkp
  exact h kp (List.mem_filter.mp hkp).1

theorem checkForDeadlocks_no_guardian (s : TrackerState) (now : Int)
    (h : ∀ kp ∈ s.promises, isGuardianFile kp.2.file = false) :
    ∀ kp ∈ (checkForDeadlocks s now).promises, isGuardianFile kp.2.file = false := by
  intro kp hkp
  simp only [checkForDeadlocks, List.mem_map] at hkp
  obtain ⟨x, hx, hmap⟩ := hkp
  by_cases hc : x.2.status = PStatus.pending ∧ now - x.2.createdAt > s.deadlockThreshold
  · rw [if_pos hc] at hmap
    rw [← hmap]
    exact h x hx
  · rw [if_neg hc] at hmap
    rw [← hmap]
    exact h x hx

theorem runTracker_no_guardian (ops : List TrackerOp) : ∀ s : TrackerState,
    (∀ kp ∈ s.promises, isGuardianFile kp.2.file = false) →
    ∀ kp ∈ (runTracker s ops).promises, isGuardianFile kp.2.file = false := by
  induction ops with
  | nil => intro s h; exact h
  | cons op rest ih =>
      intro s h
      cases op with
      | init a rt trig f l now => exact ih _ (onInit_no_guardian s a rt trig f l now h)
      | destroy a => exact ih _ (onDestroy_no_guardian s a h)
      | timer a => exact ih _ (timerFire_no_guardian s a h)
      | check now => exact ih _ (checkForDeadlocks_no_guardian s now h)

theorem detectorConstruct_no_guardian (s : DetectorState) (f : Option String)
    (l : Option Int) (now : Int)
    (h : ∀ kt ∈ s.tracked, isGuardianFile kt.2.file = false) :
    ∀ kt ∈ (detectorConstruct s f l now).tracked, isGuardianFile kt.2.file = false := by
  unfold detectorConstruct
  split
  · exact h
  · rename_i hg
    intro kt hkt
    rcases mem_setA _ _ _ _ hkt with hm | heq
    · exact h kt hm
    · subst heq
      exact eq_false_of_ne_true hg

theorem detectorAwaitObserved_no_guardian (s : DetectorState) (id : Nat)
    (h : ∀ kt ∈ s.tracked, isGuardianFile kt.2.file = false) :
    ∀ kt ∈ (detectorAwaitObserved s id).tracked, isGuardianFile kt.2.file = false := by
  unfold detectorAwaitObserved
  split
  · rename_i t hl
    intro kt hkt
    rcases mem_setA _ _ _ _ hkt with hm | heq
    · exact h kt hm
    · subst heq
      exact h (id, t) (lookupA_mem _ _ _ hl)
  · exact h

theorem detectorCheck_no_guardian (s : DetectorState) (now : Int)
    (h : ∀ kt ∈ s.tracked, isGuardianFile kt.2.file = false) :
    ∀ kt ∈ (detectorCheck s now).tracked, isGuardianFile kt.2.file = false := by
  intro kt hkt
  simp only [detectorCheck] at hkt
  exact h kt (List.mem_filter.mp hkt).1

theorem detectorSettleCleanup_no_guardian (s : DetectorState) (id : Nat)
    (h : ∀ kt ∈ s.tracked, isGuardianFile kt.2.file = false) :
    ∀ kt ∈ (detectorSettleCleanup s id).tracked, isGuardianFile kt.2.file = false := by
  intro kt hkt
  simp only [detectorSettleCleanup, delA] at hkt
  exact h kt (List.mem_filter.mp hkt).1

theorem runDetector_no_guardian (ops : List DetectorOp) : ∀ s : DetectorState,
    (∀ kt ∈ s.tracked, isGuardianFile kt.2.file = false) →
    ∀ kt ∈ (runDetector s ops).tracked, isGuardianFile kt.2.file = false := by
  induction ops with
  | nil => intro s h; exact h
  | cons op rest ih =>
      intro s h
      cases op with
      | construct f l now => exact ih _ (detectorConstruct_no_guardian s f l now h)
      | awaitObserved i => exact ih _ (detectorAwaitObserved_no_guardian s i h)
      | settle i => exact ih _ (detectorSettleCleanup_no_guardian s i h)
      | check now => exact ih _ (detectorCheck_no_guardian s now h)

/-- C6: at every state reachable by any sequence of operations, neither
the task tracker map nor the unawaited detector set contains an entry
whose originating file matches the self-filter: both insertion sites are
guarded by the same substring test. -/
theorem monitor_origin_tasks_never_tracked :
    (∀ (ops : List TrackerOp), ∀ kp ∈ (runTracker initTracker ops).promises,
        isGuardianFile kp.2.file = false)
    ∧ (∀ (ops : List DetectorOp), ∀ kt ∈ (runDetector initDetector ops).tracked,
        isGuardianFile kt.2.file = false) := by
  constructor
  · intro ops
    exact runTracker_no_guardian ops initTracker
      (by intro kp hkp; simp [initTracker] at hkp)
  · intro ops
    exact runDetector_no_guardian ops initDetector
      (by intro kt hkt; simp [initDetector] at hkt)

/-- C6 witness: the single entry left by one user-code task-init is not
monitor-internal. -/
theorem monitor_origin_tasks_never_tracked_witness :
    isGuardianFile (some "/app/user.js") = false :=
  monitor_origin_tasks_never_tracked.1
    [TrackerOp.init 1 "PROMISE" 0 (some "/app/user.js") none 0]
    (1, { asyncId := 1, rtype := "PROMISE", triggerAsyncId := 0, createdAt := 0,
          status := .pending, file := some "/app/user.js", line := none })
    (by decide)

theorem incrementCounter_counter_le (s : MetricsState) (n : String) (v : ℚ)
    (lb : List (String × String)) (hv : 0 < v)
    (name : String) (labels : List (String × String)) :
    getCounter s name labels ≤ getCounter (incrementCounter s n v lb) name labels := by
  unfold getCounter incrementCounter
  by_cases hk : getKey name labels = getKey n lb
  · rw [hk, lookupA_setA_self]
    exact le_add_of_nonneg_right hv.le
  · rw [lookupA_setA_ne _ _ _ _ hk]

theorem getCounter_le_run (ops : List MetricsOp) : ∀ s : MetricsState,
    (∀ n v lb, MetricsOp.inc n v lb ∈ ops → 0 < v) →
    ∀ name labels, getCounter s name labels ≤ getCounter (runMetrics s ops) name labels := by
  induction ops with
  | nil => intro s _ name labels; exact le_refl _
  | cons op rest ih =>
      intro s hpos name labels
      cases op with
      | inc n v lb =>
          have hv : 0 < v := hpos n v lb (List.mem_cons_self _ _)
          exact le_trans (incrementCounter_counter_le s n v lb hv name labels)
            (ih _ (fun n' v' lb' hm => hpos n' v' lb' (List.mem_cons_of_mem _ hm)) name labels)
      | recordH n v lb =>
          exact ih _ (fun n' v' lb' hm => hpos n' v' lb' (List.mem_cons_of_mem _ hm)) name labels

theorem run_counters_nonneg (ops : List MetricsOp) : ∀ s : MetricsState,
    (∀ key : String, 0 ≤ ((lookupA s.counters key).getD 0 : ℚ)) →
    (∀ n v lb, MetricsOp.inc n v lb ∈ ops → 0 < v) →
    ∀ key : String, 0 ≤ ((lookupA (runMetrics s ops).counters key).getD 0 : ℚ) := by
  induction ops with
  | nil => intro s hinv _ key; exact hinv key
  | cons op rest ih =>
      intro s hinv hpos
      cases op with
      | inc n v lb =>
          refine ih _ ?_ (fun n' v' lb' hm => hpos n' v' lb' (List.mem_cons_of_mem _ hm))
          intro key
          simp only [incrementCounter]
          by_cases hk : key = getKey n lb
          · subst hk
            rw [lookupA_setA_self]
            exact add_nonneg (hinv _) (hpos n v lb (List.mem_cons_self _ _)).le
          · rw [lookupA_setA_ne _ _ _ _ hk]
            exact hinv key
      | recordH n v lb =>
          exact ih _ hinv (fun n' v' lb' hm => hpos n' v' lb' (List.mem_cons_of_mem _ hm))

theorem runMetrics_append (a b : List MetricsOp) : ∀ s : MetricsState,
    runMetrics s (a ++ b) = runMetrics (runMetrics s a) b := by
  induction a with
  | nil => intro s; rfl
  | cons op rest ih =>
      intro s
      cases op with
      | inc n v lb => exact ih _
      | recordH n v lb => exact ih _

/-- C8 amended: provided every increment amount is positive (the default
is 1 and the usage contract says positive), the stored counter starts at
0, stays non-negative, and getCounter never decreases as further
operations run; the code itself does not validate the amount. -/
theorem counter_monotone_nonneg_under_positive_increments
    (ops1 ops2 : List MetricsOp) (name : String) (labels : List (String × String))
    (hpos : ∀ n v lb, MetricsOp.inc n v lb ∈ ops1 ++ ops2 → 0 < v) :
    0 ≤ getCounter (runMetrics initMetrics ops1) name labels
    ∧ getCounter (runMetrics initMetrics ops1) name labels
        ≤ getCounter (runMetrics initMetrics (ops1 ++ ops2)) name labels := by
  constructor
  · exact run_counters_nonneg ops1 initMetrics
      (fun key => by simp [initMetrics, lookupA])
      (fun n v lb hm => hpos n v lb (List.mem_append_left _ hm))
      (getKey name labels)
  · rw [runMetrics_append]
    exact getCounter_le_run ops2 _
      (fun n v lb hm => hpos n v lb (List.mem_append_right _ hm)) name labels

/-- C8 witness: two positive increments leave the counter non-negative
and non-decreasing. -/
theorem counter_monotone_nonneg_witness :
    0 ≤ getCounter (runMetrics initMetrics [.inc "c" 1 []]) "c" []
    ∧ getCounter (runMetrics initMetrics [.inc "c" 1 []]) "c" []
        ≤ getCounter (runMetrics initMetrics ([.inc "c" 1 []] ++ [.inc "c" 2 []])) "c" [] :=
  counter_monotone_nonneg_under_positive_increments [.inc "c" 1 []] [.inc "c" 2 []] "c" []
    (by
      intro n v lb hm
      simp only [List.cons_append, List.nil_append, List.mem_cons,
        List.not_mem_nil, or_false] at hm
      rcases hm with h | h
      · injection h with h1 h2 h3
        subst h2
        norm_num
      · injection h with h1 h2 h3
        subst h2
        norm_num)

/-- C8 counterexample: incrementCounter does not validate the amount: a
single call with value -5 leaves the counter at -5, strictly below its
initial 0, so the stored value is neither monotone nor non-negative
across arbitrary call sequences. -/
theorem incrementCounter_negative_decreases :
    getCounter (runMetrics initMetrics [.inc "c" (-5) []]) "c" [] = -5
    ∧ ((-5 : ℚ) < 0) ∧ getCounter initMetrics "c" [] = 0 := by
  refine ⟨?_, by norm_num, rfl⟩
  simp [runMetrics, incrementCounter, getCounter, getKey, initMetrics,
    lookupA_setA_self, lookupA]

theorem headD_mem_of_ne_nil (l : List ℚ) (d : ℚ) (h : l ≠ []) : l.headD d ∈ l := by
  cases l with
  | nil => exact absurd rfl h
  | cons a t => exact List.mem_cons_self _ _

theorem headD_le_of_sorted (l : List ℚ) (hs : l.Sorted (· ≤ ·)) :
    ∀ x ∈ l, l.headD 0 ≤ x := by
  intro x hx
  cases l with
  | nil => cases hx
  | cons a t =>
      rcases List.mem_cons.mp hx with rfl | hxt
      · exact le_refl _
      · exact List.rel_of_sorted_cons hs x hxt

theorem getLastD_mem_of_ne_nil : ∀ (l : List ℚ) (d : ℚ), l ≠ [] → l.getLastD d ∈ l
  | [a], _, _ => by simp [List.getLastD_cons]
  | a :: b :: t, d, _ => by
      rw [List.getLastD_cons]
      exact List.mem_cons_of_mem a (getLastD_mem_of_ne_nil (b :: t) a (by simp))

theorem le_getLastD_of_sorted : ∀ (l : List ℚ), l.Sorted (· ≤ ·) →
    ∀ x ∈ l, ∀ d : ℚ, x ≤ l.getLastD d
  | [], _, x, hx, _ => absurd hx (List.not_mem_nil x)
  | [a], _, x, hx, d => by
      rcases List.mem_singleton.mp hx with rfl
      simp [List.getLastD_cons]
  | a :: b :: t, hs, x, hx, d => by
      rw [List.getLastD_cons]
      rcases List.mem_cons.mp hx with rfl | hxt
      · have hab : x ≤ b := List.rel_of_sorted_cons hs b (List.mem_cons_self _ _)
        exact le_trans hab
          (le_getLastD_of_sorted (b :: t) hs.of_cons b (List.mem_cons_self _ _) x)
      · exact le_getLastD_of_sorted (b :: t) hs.of_cons x hxt a

/-- C9: getHistogramStats summarizes the ascending sort of the
observations: count and sum are those of the observation list, avg is
sum divided by count, min and max are the least and greatest
observations, and each percentile is an observation (the one at index
floor of count times k over 100 of the sorted sequence); on the
observations 1..100 this yields avg exactly 50.5 and p50 = 51, p95 = 96,
p99 = 100, each within 1 of the figures 50, 95 and 99. -/
theorem histogram_stats_spec (values : List ℚ) (hne : values ≠ []) :
    (∃ st : HStats, getHistogramStats values = some st
      ∧ st.count = (values.length : ℚ)
      ∧ st.sum = values.sum
      ∧ st.avg = st.sum / st.count
      ∧ st.min ∈ values ∧ st.max ∈ values
      ∧ (∀ x ∈ values, st.min ≤ x ∧ x ≤ st.max)
      ∧ st.p50 ∈ values ∧ st.p95 ∈ values ∧ st.p99 ∈ values)
    ∧ getHistogramStats oneToHundred = some
        { count := 100, sum := 5050, avg := 101 / 2, min := 1, max := 100,
          p50 := 51, p95 := 96, p99 := 100 }
    ∧ |(51 : ℚ) - 50| ≤ 1 ∧ |(96 : ℚ) - 95| ≤ 1 ∧ |(100 : ℚ) - 99| ≤ 1 := by
  refine ⟨?_, ?_, by norm_num [abs_le], by norm_num [abs_le], by norm_num [abs_le]⟩
  · have hperm : List.Perm (values.insertionSort (fun a b => a ≤ b)) values :=
      List.perm_insertionSort _ _
    have hsorted : (values.insertionSort (fun a b => a ≤ b)).Sorted (fun a b => a ≤ b) :=
      List.sorted_insertionSort _ _
    have hsne : values.insertionSort (fun a b => a ≤ b) ≠ [] := by
      intro h
      rw [h] at hperm
      exact hne hperm.symm.eq_nil
    have hemp : values.isEmpty = false := by
      cases values with
      | nil => exact absurd rfl hne
      | cons a t => rfl
    have hlen : (values.insertionSort (fun a b => a ≤ b)).length = values.length :=
      hperm.length_eq
    have hlenpos : 0 < values.length := List.length_pos.mpr hne
    have hidx50 : (values.insertionSort (fun a b => a ≤ b)).length * 50 / 100
        < (values.insertionSort (fun a b => a ≤ b)).length := by
      rw [hlen]; omega
    have hidx95 : (values.insertionSort (fun a b => a ≤ b)).length * 95 / 100
        < (values.insertionSort (fun a b => a ≤ b)).length := by
      rw [hlen]; omega
    have hidx99 : (values.insertionSort (fun a b => a ≤ b)).length * 99 / 100
        < (values.insertionSort (fun a b => a ≤ b)).length := by
      rw [hlen]; omega
    have hstats : getHistogramStats values = some
        { count := ((values.insertionSort (fun a b => a ≤ b)).length : ℚ)
          sum := (values.insertionSort (fun a b => a ≤ b)).foldl (· + ·) 0
          avg := (values.insertionSort (fun a b => a ≤ b)).foldl (· + ·) 0
              / ((values.insertionSort (fun a b => a ≤ b)).length : ℚ)
          min := (values.insertionSort (fun a b => a ≤ b)).headD 0
          max := (values.insertionSort (fun a b => a ≤ b)).getLastD 0
          p50 := (values.insertionSort (fun a b => a ≤ b)).getD
              ((values.insertionSort (fun a b => a ≤ b)).length * 50 / 100) 0
          p95 := (values.insertionSort (fun a b => a ≤ b)).getD
              ((values.insertionSort (fun a b => a ≤ b)).length * 95 / 100) 0
          p99 := (values.insertionSort (fun a b => a ≤ b)).getD
              ((values.insertionSort (fun a b => a ≤ b)).length * 99 / 100) 0 } := by
      simp only [getHistogramStats, hemp, Bool.false_eq_true, if_false]
    refine ⟨_, hstats, ?_, ?_, rfl, ?_, ?_, ?_, ?_, ?_, ?_⟩
    · show ((values.insertionSort (fun a b => a ≤ b)).length : ℚ) = (values.length : ℚ)
      rw [hlen]
    · show (values.insertionSort (fun a b => a ≤ b)).foldl (· + ·) 0 = values.sum
      rw [← List.sum_eq_foldl]
      exact hperm.sum_eq
    · exact hperm.mem_iff.mp (headD_mem_of_ne_nil _ 0 hsne)
    · exact hperm.mem_iff.mp (getLastD_mem_of_ne_nil _ 0 hsne)
    · intro x hx
      have hx' : x ∈ values.insertionSort (fun a b => a ≤ b) := hperm.mem_iff.mpr hx
      exact ⟨headD_le_of_sorted _ hsorted x hx', le_getLastD_of_sorted _ hsorted x hx' 0⟩
    · show (values.insertionSort (fun a b => a ≤ b)).getD _ 0 ∈ values
      rw [List.getD_eq_getElem _ _ hidx50]
      exact hperm.mem_iff.mp (List.getElem_mem _)
    · show (values.insertionSort (fun a b => a ≤ b)).getD _ 0 ∈ values
      rw [List.getD_eq_getElem _ _ hidx95]
      exact hperm.mem_iff.mp (List.getElem_mem _)
    · show (values.insertionSort (fun a b => a ≤ b)).getD _ 0 ∈ values
      rw [List.getD_eq_getElem _ _ hidx99]
      exact hperm.mem_iff.mp (List.getElem_mem _)
  · have hemp : oneToHundred.isEmpty = false := rfl
    have hsorted100 : oneToHundred.insertionSort (fun a b => a ≤ b) = oneToHundred := by
      apply List.Sorted.insertionSort_eq
      decide
    have hsum100 : oneToHundred.foldl (· + ·) 0 = 5050 := by
      norm_num [oneToHundred]
    have hlen100 : oneToHundred.length = 100 := rfl
    simp only [getHistogramStats, hemp, Bool.false_eq_true, if_false, hsorted100,
      hsum100, Option.some_inj]
    simp only [HStats.mk.injEq, hlen100]
    refine ⟨by norm_num, trivial, by norm_num, by decide, by decide, by decide,
      by decide, by decide⟩

/-- C9 witness: the general summary applied to the two observations 2
and 1. -/
theorem histogram_stats_spec_witness :
    ∃ st : HStats, getHistogramStats [(2 : ℚ), 1] = some st
      ∧ st.count = (([(2 : ℚ), 1]).length : ℚ)
      ∧ st.sum = ([(2 : ℚ), 1]).sum
      ∧ st.avg = st.sum / st.count
      ∧ st.min ∈ [(2 : ℚ), 1] ∧ st.max ∈ [(2 : ℚ), 1]
      ∧ (∀ x ∈ [(2 : ℚ), 1], st.min ≤ x ∧ x ≤ st.max)
      ∧ st.p50 ∈ [(2 : ℚ), 1] ∧ st.p95 ∈ [(2 : ℚ), 1] ∧ st.p99 ∈ [(2 : ℚ), 1] :=
  (histogram_stats_spec [(2 : ℚ), 1] (by simp)).1

end NodeGuardian
